import Mathlib

/-!
Shallow embedding of `src/src/sortmerna/paralleltraversal.cpp` (the per-read
driver `parallelTraversalJob`, the read formatting helpers, and the window /
pass control loops), together with theorems settling the frozen claims about
this code.

Conventions of the embedding:
* machine integers become `Nat` (with an explicit `% 2 ^ 32` where the C++
  uint32 arithmetic can wrap) or `Int` where the C++ value can be negative
  (`read.num_alignments`, the `*_gv` option globals);
* C byte buffers become `List Nat` of byte values; the terminating `'\0'` of a
  C string is the end of the list;
* the external collaborators that are declared in headers but whose code is
  not part of this repository slice (`traversetrie_align` from
  `traverse_bursttrie.hpp`, `compute_lis_alignment` from `alignment.hpp`) are
  oracles: arbitrary functions supplied as parameters, constrained only where
  a theorem needs a documented property of theirs.
-/

namespace Sortmerna

/-- One entry of `read.id_win_hits` / `id_hits`: the C++ `id_win` struct,
a (reference seed id, window offset on the read) pair. -/
structure IdWin where
  id : Nat
  win : Nat
deriving DecidableEq, Repr

/-- An accepted alignment (spec §3); its fields are produced by the external
chainer/extender and are never inspected by the driver, which only stores the
list. -/
structure Alignment where
  ref_id : Nat
  ref_begin : Nat
  ref_end : Nat
  read_begin : Nat
  read_end : Nat
  score : Nat
deriving DecidableEq, Repr

/-- The mutable per-read state of the C++ `Read` object, restricted to the
fields `parallelTraversalJob` reads or writes.  `isequence` is the 2-bit
encoded sequence; per the spec invariant `|sequence| = |isequence|`, the
driver's uses of `read.sequence.size()` are rendered as
`read.isequence.length`. -/
structure Read where
  id : Nat
  isequence : List Nat
  isValid : Bool
  lastIndex : Nat
  lastPart : Nat
  num_alignments : Int
  max_SW_score : Nat
  hit : Bool
  hit_denovo : Bool
  readhit : Nat
  id_win_hits : List IdWin
  alignments : List Alignment
deriving DecidableEq, Repr

/-- The statistics fields of `Readstats` touched by the driver. -/
structure Readstats where
  min_read_len : Nat
  max_read_len : Nat
  total_reads_denovo_clustering : Nat
deriving DecidableEq, Repr

/-- The process-wide option globals read by `parallelTraversalJob`
(`num_alignments_gv`, `num_best_hits_gv`, `min_lis_gv`, `de_novo_otu_gv`). -/
structure Config where
  num_alignments_gv : Int
  num_best_hits_gv : Int
  min_lis_gv : Int
  de_novo_otu_gv : Bool
deriving DecidableEq, Repr

/-- One slot of `index.lookup_tbl`: an occurrence count and the two optional
burst-trie roots.  Trie roots are abstract identifiers handed to the
traversal oracle; `none` renders a NULL pointer. -/
structure LookupEntry where
  count : Nat
  trie_F : Option Nat
  trie_R : Option Nat

/-- The slice of `Index` that the driver reads for the current
`(index_num, part)`: the per-index parameters are already projected at
`index.index_num`, so `lnwin` here is the C++ `index.lnwin[index.index_num]`,
`skiplengths` is `index.opts.skiplengths[index.index_num]`, etc. -/
structure IndexPart where
  index_num : Nat
  part : Nat
  forward : Bool
  lnwin : Nat
  partialwin : Nat
  numbvs : Nat
  matchScore : Nat
  skiplengths : List Nat
  lookup : Nat → LookupEntry

/- ------------------------------------------------------------------ -/
/- `format_forward` (paralleltraversal.cpp lines 91-109).              -/
/- ------------------------------------------------------------------ -/

/-- FASTA branch of `format_forward` (lines 94-102).  The C loop runs while
the current byte is neither `'\0'` (end of list here) nor `'>'` (62); for
each byte it tests `*read_seq != '\n' || *read_seq != '\r'` — the condition
exactly as written in the source — and, when that holds, emits the
`nt_table` translation of the byte.  The trailing `'\n'` (10) renders
`*myread = '\n'` marking the end of the read. -/
def format_forward_fasta (nt_table : Nat → Nat) : List Nat → List Nat
  | [] => [10]
  | b :: rest =>
    if b = 0 ∨ b = 62 then [10]
    else if b ≠ 10 ∨ b ≠ 13 then nt_table b :: format_forward_fasta nt_table rest
    else format_forward_fasta nt_table rest

/-- FASTQ branch of `format_forward` (lines 104-108): copy until the first
`'\n'` or `'\r'`. -/
def format_forward_fastq (nt_table : Nat → Nat) : List Nat → List Nat
  | [] => [10]
  | b :: rest =>
    if b ≠ 10 ∧ b ≠ 13 then nt_table b :: format_forward_fastq nt_table rest
    else [10]

/-- `format_forward` (line 91): dispatch on `filesig` — `'>'` (62) selects
the FASTA branch. -/
def format_forward (nt_table : Nat → Nat) (filesig : Nat) (read_seq : List Nat) : List Nat :=
  if filesig = 62 then format_forward_fasta nt_table read_seq
  else format_forward_fastq nt_table read_seq

/-- Claim C7: in the FASTA branch of `format_forward`, the guard
`*read_seq != '\n' || *read_seq != '\r'` is true for every byte (no byte is
simultaneously 10 and 13), so the branch copies the `nt_table` translation of
every byte up to the terminating `'\0'` or `'>'` — newline (10) and carriage
return (13) bytes included. -/
theorem C7_fasta_copies_all_bytes (nt_table : Nat → Nat) (read_seq : List Nat) :
    format_forward nt_table 62 read_seq =
      (read_seq.takeWhile (fun b => !(b == 0 || b == 62))).map nt_table ++ [10] := by
  have h62 : format_forward nt_table 62 read_seq = format_forward_fasta nt_table read_seq := by
    simp [format_forward]
  rw [h62]; clear h62
  induction read_seq with
  | nil => simp [format_forward_fasta]
  | cons b rest ih =>
    by_cases hstop : b = 0 ∨ b = 62
    · have : (b == 0 || b == 62) = true := by
        rcases hstop with h | h <;> simp [h]
      simp [format_forward_fasta, hstop, List.takeWhile, this]
    · have hguard : b ≠ 10 ∨ b ≠ 13 := by omega
      have hb : (b == 0 || b == 62) = false := by
        push_neg at hstop
        simp [hstop.1, hstop.2]
      simp [format_forward_fasta, hstop, hguard, List.takeWhile, hb, ih]

/- ------------------------------------------------------------------ -/
/- Half-window keys and the per-window probe (lines 206-335).          -/
/- ------------------------------------------------------------------ -/

/-- The uint32 modulus. -/
def U32 : Nat := 4294967296

/-- The key-building loop (lines 242-247 and 293-297): starting from
`key = 0` at `seq[p]`, repeat `g` times `(key <<= 2) |= *ptr; ++ptr`, on
uint32 arithmetic.  Out-of-range reads render as `getD _ 0`; every call site
reads inside the window, which theorem `C3_window_bounds` keeps inside the
sequence. -/
def buildKey (seq : List Nat) : Nat → Nat → Nat → Nat
  | _, key, 0 => key
  | p, key, g + 1 => buildKey seq (p + 1) (((key <<< 2) % U32) ||| seq.getD p 0) g

/-- The same shift-and-OR recurrence as a fold over an explicit list of
characters (the spec's `key = 0; for each of partialwin chars c:
key = (key << 2) | c`). -/
def keyFold (l : List Nat) : Nat :=
  l.foldl (fun key c => ((key <<< 2) % U32) ||| c) 0

/-- MSB-first base-4 packing: the first character is the most significant
digit. -/
def keyPoly (l : List Nat) : Nat :=
  l.foldl (fun acc c => acc * 4 + c) 0

/-- Oracles for the two external calls the probe makes.  `trieF`/`trieR`
stand for `traversetrie_align` (traverse_bursttrie.hpp; not part of this
repository slice).  Modelled from the spec: `traversetrie_align` records each
occurrence found in the trie as a hit `(ref_id, win_index)` in `id_hits` and
sets `accept_zero_kmer` when the match was exact; the oracle is indexed by
the trie root and returns the reference seed ids plus the exact-match flag,
and the probe forms the `(ref_id, win_index)` pairs.  `chainer` stands for
`compute_lis_alignment` (alignment.hpp; not part of this slice): it may
mutate the read and the statistics and returns the new value of `search`
(`false` once the alignment is found); it is indexed by the invocation
number so a single oracle can describe any call sequence. -/
structure Oracles where
  trieF : Nat → Nat → Nat → List Nat × Bool
  trieR : Nat → Nat → Nat → List Nat × Bool
  chainer : Nat → Read → Readstats → Read × Readstats × Bool

/-- Instrumentation record for one window probe, recording the computed keys
and which subsearches ran; used only by the theorems. -/
structure ProbeTrace where
  keyf : Nat
  acceptAfterF : Bool
  keyr : Option Nat
  ranF : Bool
  ranR : Bool
  hits : List IdWin
deriving DecidableEq, Repr

/-- Lines 327-334: when `id_hits` is non-empty, append its entries to
`read.id_win_hits` and bump `read.readhit`. -/
def appendHits (read : Read) (id_hits : List IdWin) : Read :=
  if id_hits.isEmpty then read
  else { read with id_win_hits := read.id_win_hits ++ id_hits, readhit := read.readhit + 1 }

/-- One window probe: the block at lines 223-335.  `minoccur` is the local
declared at line 206 and never updated.  Subsearch 1(a): build `keyf` over
the left half window starting at `win_index`; traverse `trie_F` when
`count > minoccur` and the trie root is non-NULL.  Subsearch 1(b), only when
`accept_zero_kmer` is still false: build `keyr` over the right half starting
at `win_index + partialwin`; traverse `trie_R` under the same table
conditions.  The collected `id_hits` are then appended to
`read.id_win_hits` and `read.readhit` is incremented when any hit was found
(lines 327-334).  The bitvector construction (`init_win_f`/`init_win_r`,
lines 229-235 and 280-287) only feeds the traversal and is absorbed into the
oracle.  `keyr` is hoisted out of the `!accept_zero_kmer` branch (it is a
pure computation); the trace's `keyr` field is `none` exactly when the
source never computes it, and `ranR` carries the full nested condition. -/
def probeWindow (ix : IndexPart) (o : Oracles) (read : Read) (win_index : Nat) :
    Read × ProbeTrace :=
  let minoccur : Nat := 0
  let keyf := buildKey read.isequence win_index 0 ix.partialwin
  let e_f := ix.lookup keyf
  let ranF := decide (minoccur < e_f.count) && e_f.trie_F.isSome
  let resF := if ranF then o.trieF (e_f.trie_F.getD 0) read.id win_index else ([], false)
  let accept_zero_kmer := resF.2
  let keyr := buildKey read.isequence (win_index + ix.partialwin) 0 ix.partialwin
  let e_r := ix.lookup keyr
  let ranR := !accept_zero_kmer && (decide (minoccur < e_r.count) && e_r.trie_R.isSome)
  let resR := if ranR then o.trieR (e_r.trie_R.getD 0) read.id win_index else ([], false)
  let id_hits := (resF.1 ++ resR.1).map fun rid => IdWin.mk rid win_index
  (appendHits read id_hits,
    ⟨keyf, accept_zero_kmer, if accept_zero_kmer then none else some keyr, ranF, ranR, id_hits⟩)

theorem appendHits_isequence (read : Read) (id_hits : List IdWin) :
    (appendHits read id_hits).isequence = read.isequence := by
  unfold appendHits; split <;> rfl

theorem probeWindow_isequence (ix : IndexPart) (o : Oracles) (read : Read) (win_index : Nat) :
    ((probeWindow ix o read win_index).1).isequence = read.isequence := by
  simp only [probeWindow]
  exact appendHits_isequence _ _

theorem probeWindow_hits_win (ix : IndexPart) (o : Oracles) (read : Read) (win_index : Nat) :
    ∀ e ∈ ((probeWindow ix o read win_index).2).hits, e.win = win_index := by
  intro e he
  simp only [probeWindow, List.mem_map] at he
  obtain ⟨rid, -, rfl⟩ := he
  rfl

theorem four_mul_lor_eq_add (k c : Nat) (hc : c < 4) : (4 * k) ||| c = 4 * k + c := by
  have h4 : 4 * k = Nat.bit false (Nat.bit false k) := by
    simp [Nat.bit_val]; ring
  interval_cases c
  · simp
  · have h1 : (1 : Nat) = Nat.bit true 0 := by simp [Nat.bit_val]
    rw [h4, h1, Nat.lor_bit]
    simp [Nat.bit_val]
  · have h2 : (2 : Nat) = Nat.bit false (Nat.bit true 0) := by simp [Nat.bit_val]
    rw [h4, h2, Nat.lor_bit, Nat.lor_bit]
    simp [Nat.bit_val]; ring
  · have h3 : (3 : Nat) = Nat.bit true (Nat.bit true 0) := by simp [Nat.bit_val]
    rw [h4, h3, Nat.lor_bit, Nat.lor_bit]
    simp [Nat.bit_val]; ring

theorem shiftOr_step (key poly c : Nat) (hc : c < 4) (hkey : key = poly % U32) :
    ((key <<< 2) % U32) ||| c = (poly * 4 + c) % U32 := by
  have hsh : key <<< 2 = 4 * key := by
    rw [Nat.shiftLeft_eq]; ring
  have hmod : (4 * key) % U32 = 4 * (key % 1073741824) := by
    have hU : U32 = 4 * 1073741824 := by norm_num [U32]
    rw [hU, Nat.mul_mod_mul_left]
  have hkey30 : key % 1073741824 = poly % 1073741824 := by
    rw [hkey]
    exact Nat.mod_mod_of_dvd poly (by norm_num [U32])
  have hplt : poly % 1073741824 < 1073741824 := Nat.mod_lt _ (by norm_num)
  have hrhs : (poly * 4 + c) % U32 = 4 * (poly % 1073741824) + c := by
    have h1 : poly * 4 % U32 = 4 * (poly % 1073741824) := by
      have hU : U32 = 4 * 1073741824 := by norm_num [U32]
      rw [mul_comm poly 4, hU, Nat.mul_mod_mul_left]
    rw [Nat.add_mod, h1]
    have hcm : c % U32 = c := Nat.mod_eq_of_lt (by norm_num [U32]; omega)
    rw [hcm]
    exact Nat.mod_eq_of_lt (by norm_num [U32]; omega)
  rw [hsh, hmod, hkey30, four_mul_lor_eq_add _ _ hc, hrhs]

theorem keyFold_eq_keyPoly_aux (l : List Nat) :
    ∀ key poly, key = poly % U32 → (∀ c ∈ l, c < 4) →
      l.foldl (fun k c => ((k <<< 2) % U32) ||| c) key
        = (l.foldl (fun acc c => acc * 4 + c) poly) % U32 := by
  induction l with
  | nil => intro key poly hkp _; simpa using hkp
  | cons c rest ih =>
    intro key poly hkp hlt
    simp only [List.foldl_cons]
    exact ih _ _ (shiftOr_step key poly c (hlt c (by simp)) hkp)
      (fun x hx => hlt x (by simp [hx]))

/-- The shift-and-OR fold equals MSB-first base-4 packing modulo 2^32, for
2-bit characters. -/
theorem keyFold_eq_keyPoly (l : List Nat) (h : ∀ c ∈ l, c < 4) :
    keyFold l = keyPoly l % U32 :=
  keyFold_eq_keyPoly_aux l 0 0 (by simp) h

theorem buildKey_foldl (seq : List Nat) :
    ∀ n p key, p + n ≤ seq.length →
      buildKey seq p key n
        = ((seq.drop p).take n).foldl (fun k c => ((k <<< 2) % U32) ||| c) key := by
  intro n
  induction n with
  | zero => intro p key _; simp [buildKey]
  | succ m ih =>
    intro p key hpn
    have hp : p < seq.length := by omega
    have hdrop : seq.drop p = seq[p] :: seq.drop (p + 1) :=
      List.drop_eq_getElem_cons hp
    have hgetD : seq.getD p 0 = seq[p] := by
      simp [List.getD_eq_getElem?_getD, List.getElem?_eq_getElem hp]
    rw [buildKey, hgetD, hdrop, List.take_succ_cons, List.foldl_cons]
    exact ih (p + 1) _ (by omega)

theorem trace_keyr_eq (ix : IndexPart) (o : Oracles) (read : Read) (win_index : Nat) :
    ((probeWindow ix o read win_index).2).keyr
      = if ((probeWindow ix o read win_index).2).acceptAfterF then none
        else some (buildKey read.isequence (win_index + ix.partialwin) 0 ix.partialwin) := rfl

theorem trace_ranF_eq (ix : IndexPart) (o : Oracles) (read : Read) (win_index : Nat) :
    ((probeWindow ix o read win_index).2).ranF
      = (decide (0 < (ix.lookup ((probeWindow ix o read win_index).2).keyf).count)
          && (ix.lookup ((probeWindow ix o read win_index).2).keyf).trie_F.isSome) := rfl

theorem trace_ranR_eq (ix : IndexPart) (o : Oracles) (read : Read) (win_index : Nat) :
    ((probeWindow ix o read win_index).2).ranR
      = (!((probeWindow ix o read win_index).2).acceptAfterF
          && (decide (0 < (ix.lookup (buildKey read.isequence (win_index + ix.partialwin) 0 ix.partialwin)).count)
              && (ix.lookup (buildKey read.isequence (win_index + ix.partialwin) 0 ix.partialwin)).trie_R.isSome)) := rfl

/-- Claim C5: the half-window keys are packed MSB-first over exactly
`partialwin` 2-bit characters by the repeated `key = (key << 2) | c`
shift-and-OR: `keyf` over the left half starting at `win_index` (lines
237-247), and — whenever subsearch 1(b) computes it — `keyr` over the right
half starting at `win_index + partialwin` (lines 289-297).  The last two
conjuncts show the fold is the MSB-first base-4 packing of the half-window
(mod 2^32). -/
theorem C5_halfwindow_keys (ix : IndexPart) (o : Oracles) (read : Read) (win_index : Nat)
    (hw : win_index + 2 * ix.partialwin ≤ read.isequence.length)
    (h2bit : ∀ c ∈ read.isequence, c < 4) :
    ((probeWindow ix o read win_index).2).keyf
        = keyFold ((read.isequence.drop win_index).take ix.partialwin)
    ∧ (((probeWindow ix o read win_index).2).keyr = none ∨
        ((probeWindow ix o read win_index).2).keyr
          = some (keyFold ((read.isequence.drop (win_index + ix.partialwin)).take ix.partialwin)))
    ∧ keyFold ((read.isequence.drop win_index).take ix.partialwin)
        = keyPoly ((read.isequence.drop win_index).take ix.partialwin) % U32
    ∧ keyFold ((read.isequence.drop (win_index + ix.partialwin)).take ix.partialwin)
        = keyPoly ((read.isequence.drop (win_index + ix.partialwin)).take ix.partialwin) % U32 := by
  have hf : buildKey read.isequence win_index 0 ix.partialwin
      = keyFold ((read.isequence.drop win_index).take ix.partialwin) :=
    buildKey_foldl read.isequence ix.partialwin win_index 0 (by omega)
  have hr : buildKey read.isequence (win_index + ix.partialwin) 0 ix.partialwin
      = keyFold ((read.isequence.drop (win_index + ix.partialwin)).take ix.partialwin) :=
    buildKey_foldl read.isequence ix.partialwin (win_index + ix.partialwin) 0 (by omega)
  refine ⟨?_, ?_, ?_, ?_⟩
  · exact hf
  · rw [trace_keyr_eq]
    by_cases h : ((probeWindow ix o read win_index).2).acceptAfterF = true
    · exact Or.inl (by simp [h])
    · exact Or.inr (by rw [if_neg (by simpa using h), hr])
  · exact keyFold_eq_keyPoly _ fun c hc =>
      h2bit c (List.mem_of_mem_drop (List.mem_of_mem_take hc))
  · exact keyFold_eq_keyPoly _ fun c hc =>
      h2bit c (List.mem_of_mem_drop (List.mem_of_mem_take hc))

/-- Witness for `C5_halfwindow_keys` at a concrete probe. -/
theorem C5_halfwindow_keys_witness :
    (0 + 2 * 2 ≤ ([1, 2, 3, 1] : List Nat).length) ∧
      ((probeWindow ⟨0, 0, true, 4, 2, 2, 2, [1, 1, 1], fun _ => ⟨0, none, none⟩⟩
            ⟨fun _ _ _ => ([], false), fun _ _ _ => ([], false), fun _ r s => (r, s, false)⟩
            ⟨7, [1, 2, 3, 1], true, 0, 0, 0, 0, false, false, 0, [], []⟩ 0).2).keyf
        = keyFold (([1, 2, 3, 1] : List Nat).drop 0 |>.take 2) :=
  ⟨by decide,
    (C5_halfwindow_keys ⟨0, 0, true, 4, 2, 2, 2, [1, 1, 1], fun _ => ⟨0, none, none⟩⟩
        ⟨fun _ _ _ => ([], false), fun _ _ _ => ([], false), fun _ r s => (r, s, false)⟩
        ⟨7, [1, 2, 3, 1], true, 0, 0, 0, 0, false, false, 0, [], []⟩ 0 (by decide)
        (by decide)).1⟩

/-- Claim C6: subsearch 1(a) (the `trie_F` traversal, lines 249-275) runs
iff `lookup_tbl[keyf].count` exceeds the `minoccur` threshold — which the
source fixes at 0 (line 206) — and `trie_F` is non-NULL; subsearch 1(b)
(the `trie_R` traversal, lines 278-324) runs iff `accept_zero_kmer` is still
false after 1(a) and the same table conditions hold at `keyr`. -/
theorem C6_probe_conditions (ix : IndexPart) (o : Oracles) (read : Read) (win_index : Nat) :
    (((probeWindow ix o read win_index).2).ranF = true ↔
        0 < (ix.lookup ((probeWindow ix o read win_index).2).keyf).count ∧
          (ix.lookup ((probeWindow ix o read win_index).2).keyf).trie_F ≠ none)
    ∧ (((probeWindow ix o read win_index).2).ranR = true ↔
        ((probeWindow ix o read win_index).2).acceptAfterF = false ∧
          0 < (ix.lookup (buildKey read.isequence (win_index + ix.partialwin) 0 ix.partialwin)).count ∧
          (ix.lookup (buildKey read.isequence (win_index + ix.partialwin) 0 ix.partialwin)).trie_R ≠ none) := by
  constructor
  · rw [trace_ranF_eq]
    simp [Option.isSome_iff_ne_none]
  · rw [trace_ranR_eq]
    simp [Option.isSome_iff_ne_none, Bool.not_eq_true']

/- ------------------------------------------------------------------ -/
/- Pass control: the window loop and the pass loop (lines 209-369).    -/
/- ------------------------------------------------------------------ -/

/-- The skip-ahead `while` of lines 357-358:
`while ((pass_n < 3) && (skiplengths[pass_n] == skiplengths[pass_n + 1])) ++pass_n`.
Returns the final `pass_n` together with the list of `skiplengths` indices
the guard reads (both operands, read only when `pass_n < 3` holds, matching
the `&&` short-circuit).  The loop body runs at most `3 - pass_n` times
because the guard requires `pass_n < 3`, so a structural fuel of 3 is exact:
at fuel 0 the remaining guard is `3 < 3`, which is false, and both render
`(pass_n, [])`.  A read past the end of `skiplengths` yields `none` here; in
the C++ source it is an out-of-bounds `vector` read (see the C9 theorem).
Whichever value that read compares equal to, `afterFinal` below ends the
search, since both resolutions leave `pass_n + 1 > 2`. -/
def passAdvanceGo (skips : List Nat) : Nat → Nat → Nat × List Nat
  | 0, pass_n => (pass_n, [])
  | fuel + 1, pass_n =>
    if pass_n < 3 then
      if skips[pass_n]? = skips[pass_n + 1]? then
        let r := passAdvanceGo skips fuel (pass_n + 1)
        (r.1, pass_n :: (pass_n + 1) :: r.2)
      else (pass_n, [pass_n, pass_n + 1])
    else (pass_n, [])

/-- Final `pass_n` after the skip-ahead while loop. -/
def passAdvance (skips : List Nat) (pass_n : Nat) : Nat :=
  (passAdvanceGo skips 3 pass_n).1

/-- The `skiplengths` indices the skip-ahead guard reads. -/
def passAdvanceAccesses (skips : List Nat) (pass_n : Nat) : List Nat :=
  (passAdvanceGo skips 3 pass_n).2

/-- Outcome of the post-final-window bookkeeping: either the outer search
loop stops, or the next pass runs with the given `pass_n` and stride. -/
inductive PassStep where
  | stop : PassStep
  | next (pass_n : Nat) (windowshift : Nat) : PassStep
deriving DecidableEq, Repr

/-- Lines 350-363, executed after `compute_lis_alignment` at the final
window of a pass: if the chainer left `search` true, stop when `pass_n = 2`;
otherwise run the skip-ahead, increment `pass_n`, and either stop (past
pass 2) or continue with stride `skiplengths[pass_n]`.  When the chainer
cleared `search`, the outer loop exits. -/
def afterFinal (skips : List Nat) (pass_n : Nat) (search : Bool) : PassStep :=
  if search then
    if pass_n = 2 then .stop
    else
      let p := passAdvance skips pass_n
      if p + 1 > 2 then .stop
      else .next (p + 1) (skips.getD (p + 1) 0)
  else .stop

/-- State threaded through the window/pass loops: the read, the statistics,
the `read_index_hits` bitset of already-searched window offsets (line 194),
and the count of chainer invocations (feeding the chainer oracle's
invocation index).  `probed` and `appended` are ghost accumulators recording
the window offsets actually probed and the `id_win` pairs the probes
appended to `read.id_win_hits`; no code path reads them. -/
structure PassState where
  read : Read
  stats : Readstats
  visited : Nat → Bool
  chainerCalls : Nat
  probed : List Nat
  appended : List IdWin

/-- Initial `PassState`: `read_index_hits` is all-false
(`vector<bool> read_index_hits(read.sequence.size())`, line 194). -/
def initPassState (read : Read) (stats : Readstats) : PassState :=
  ⟨read, stats, fun _ => false, 0, [], []⟩

/-- The window `for` loop of one pass (lines 217-367), recursing on the
number of windows still to visit (`remaining = numwin - win_num`; the
source's loop counter `win_num` equals `numwin - remaining`).  Each
iteration skips the probe when the offset was searched in an earlier pass
(the `goto check_score` at line 220), otherwise marks the offset and probes.
At the final window (`win_num == numwin - 1`) the chainer is invoked and
the loop breaks, returning the chainer's `search` value; a pass with
`numwin = 0` never reaches the chainer and returns `none`. -/
def windowLoop (ix : IndexPart) (o : Oracles) (windowshift : Nat) :
    Nat → Nat → PassState → PassState × Option Bool
  | 0, _, st => (st, none)
  | remaining + 1, win_index, st =>
    let st1 :=
      if st.visited win_index then st
      else
        let pr := probeWindow ix o st.read win_index
        { st with
            read := pr.1
            visited := fun j => if j = win_index then true else st.visited j
            probed := st.probed ++ [win_index]
            appended := st.appended ++ pr.2.hits }
    if remaining = 0 then
      let ch := o.chainer st1.chainerCalls st1.read st1.stats
      ({ st1 with
          read := ch.1
          stats := ch.2.1
          chainerCalls := st1.chainerCalls + 1 },
        some ch.2.2)
    else windowLoop ix o windowshift remaining (win_index + windowshift) st1

/-- The outer `for (bool search = true; search; )` pass loop (lines
209-369), with explicit fuel rendering the unbounded C++ loop: each
iteration computes `numwin` for the current stride, runs the windows, and
applies `afterFinal`.  `none` means the fuel ran out; the C4 theorem shows
fuel 3 always suffices under the documented side conditions. -/
def passLoopF (ix : IndexPart) (o : Oracles) : Nat → Nat → Nat → PassState → Option PassState
  | 0, _, _, _ => none
  | fuel + 1, pass_n, windowshift, st =>
    let numwin := (st.read.isequence.length - ix.lnwin + windowshift) / windowshift
    let res := windowLoop ix o windowshift numwin 0 st
    match res.2 with
    | none => passLoopF ix o fuel pass_n windowshift res.1
    | some search =>
      match afterFinal ix.skiplengths pass_n search with
      | .stop => some res.1
      | .next p sh => passLoopF ix o fuel p sh res.1

theorem passAdvanceGo_le (skips : List Nat) :
    ∀ fuel pass_n, pass_n ≤ (passAdvanceGo skips fuel pass_n).1 := by
  intro fuel
  induction fuel with
  | zero => intro pass_n; simp [passAdvanceGo]
  | succ m ih =>
    intro pass_n
    simp only [passAdvanceGo]
    split
    · split
      · exact Nat.le_trans (Nat.le_succ _) (ih (pass_n + 1))
      · exact Nat.le_refl _
    · exact Nat.le_refl _

theorem passAdvance_le (skips : List Nat) (pass_n : Nat) :
    pass_n ≤ passAdvance skips pass_n :=
  passAdvanceGo_le skips 3 pass_n

theorem afterFinal_stop_iff (skips : List Nat) (pass_n : Nat) (search : Bool) :
    afterFinal skips pass_n search = PassStep.stop ↔
      (search = false ∨ pass_n = 2 ∨ 2 < passAdvance skips pass_n + 1) := by
  cases search with
  | false => simp [afterFinal]
  | true =>
    by_cases h2 : pass_n = 2
    · simp [afterFinal, h2]
    · by_cases hp : passAdvance skips pass_n + 1 > 2
      · simp [afterFinal, h2, hp]
      · simp [afterFinal, h2, hp]

theorem afterFinal_next (skips : List Nat) (pass_n : Nat) (search : Bool) (p sh : Nat)
    (h : afterFinal skips pass_n search = PassStep.next p sh) :
    pass_n < p ∧ p ≤ 2 ∧ sh = skips.getD p 0 := by
  cases search with
  | false => simp [afterFinal] at h
  | true =>
    by_cases h2 : pass_n = 2
    · simp [afterFinal, h2] at h
    · by_cases hp : passAdvance skips pass_n + 1 > 2
      · simp [afterFinal, h2, hp] at h
      · simp only [afterFinal, if_pos rfl, if_neg h2, if_neg hp] at h
        obtain ⟨rfl, rfl⟩ := PassStep.next.inj h
        have := passAdvance_le skips pass_n
        exact ⟨by omega, by omega, rfl⟩

theorem windowLoop_len (ix : IndexPart) (o : Oracles) (ws : Nat)
    (hch : ∀ n r s, ((o.chainer n r s).1).isequence.length = r.isequence.length) :
    ∀ rem wi st, (((windowLoop ix o ws rem wi st).1).read).isequence.length
      = st.read.isequence.length := by
  intro rem
  induction rem with
  | zero => intro wi st; rfl
  | succ m ih =>
    intro wi st
    simp only [windowLoop]
    split
    · rename_i hm
      split <;> simp [hch, probeWindow_isequence]
    · rename_i hm
      split
      · rw [ih]
      · rw [ih]
        simp [probeWindow_isequence]

theorem windowLoop_isSome (ix : IndexPart) (o : Oracles) (ws : Nat) :
    ∀ rem wi st, 0 < rem → ((windowLoop ix o ws rem wi st).2).isSome := by
  intro rem
  induction rem with
  | zero => intro wi st h; omega
  | succ m ih =>
    intro wi st _
    simp only [windowLoop]
    by_cases hm : m = 0
    · simp [hm]
    · have hm' : 0 < m := Nat.pos_of_ne_zero hm
      simp only [if_neg hm]
      split <;> exact ih _ _ hm'

theorem passLoopF_isSome (ix : IndexPart) (o : Oracles)
    (h3 : ix.skiplengths.length = 3) (hpos : ∀ x ∈ ix.skiplengths, 0 < x)
    (hch : ∀ n r s, ((o.chainer n r s).1).isequence.length = r.isequence.length) :
    ∀ fuel pass_n ws st, pass_n ≤ 2 → 3 - pass_n ≤ fuel → 0 < ws →
      ix.lnwin ≤ st.read.isequence.length →
      (passLoopF ix o fuel pass_n ws st).isSome := by
  intro fuel
  induction fuel with
  | zero => intro pass_n ws st hp hf _ _; omega
  | succ m ih =>
    intro pass_n ws st hp hf hws hlen
    simp only [passLoopF]
    have hnw : 0 < (st.read.isequence.length - ix.lnwin + ws) / ws :=
      (Nat.le_div_iff_mul_le hws).mpr (by omega)
    have hsome := windowLoop_isSome ix o ws _ 0 st hnw
    obtain ⟨b, hb⟩ := Option.isSome_iff_exists.mp hsome
    rw [hb]
    have hlen' : ix.lnwin ≤
        ((windowLoop ix o ws ((st.read.isequence.length - ix.lnwin + ws) / ws) 0 st).1).read.isequence.length := by
      rw [windowLoop_len ix o ws hch]
      exact hlen
    cases haf : afterFinal ix.skiplengths pass_n b with
    | stop => simp [haf]
    | next p sh =>
      obtain ⟨hlt, hle, hsh⟩ := afterFinal_next ix.skiplengths pass_n b p sh haf
      have hshpos : 0 < sh := by
        rw [hsh]
        have hlt3 : p < ix.skiplengths.length := by omega
        rw [List.getD_eq_getElem?_getD, List.getElem?_eq_getElem hlt3]
        exact hpos _ (List.getElem_mem hlt3)
      have := ih p sh _ hle (by omega) hshpos hlen'
      simpa [haf] using this

theorem windowLoop_probed (ix : IndexPart) (o : Oracles) (ws : Nat) :
    ∀ rem wi st, ∀ x ∈ ((windowLoop ix o ws rem wi st).1).probed,
      x ∈ st.probed ∨ ∃ k, k < rem ∧ x = wi + k * ws := by
  intro rem
  induction rem with
  | zero => intro wi st x hx; exact Or.inl hx
  | succ m ih =>
    intro wi st x hx
    have hst1 : ∀ st1 : PassState,
        (st1 = st ∨ st1.probed = st.probed ++ [wi]) →
        x ∈ st1.probed → x ∈ st.probed ∨ ∃ k, k < m + 1 ∧ x = wi + k * ws := by
      intro st1 h1 hmem
      rcases h1 with rfl | h1
      · exact Or.inl hmem
      · rw [h1, List.mem_append] at hmem
        rcases hmem with h | h
        · exact Or.inl h
        · exact Or.inr ⟨0, by omega, by simpa using h⟩
    simp only [windowLoop] at hx
    by_cases hv : st.visited wi
    · simp only [hv, if_true] at hx
      by_cases hm : m = 0
      · simp only [hm, if_true] at hx
        exact hst1 st (Or.inl rfl) hx
      · simp only [hm, if_false] at hx
        rcases ih (wi + ws) st x hx with h | ⟨k, hk, rfl⟩
        · exact hst1 st (Or.inl rfl) h
        · exact Or.inr ⟨k + 1, by omega, by rw [Nat.succ_mul]; omega⟩
    · simp only [hv, if_false] at hx
      by_cases hm : m = 0
      · simp only [hm, if_true] at hx
        exact hst1 _ (Or.inr rfl) hx
      · simp only [hm, if_false] at hx
        rcases ih (wi + ws) _ x hx with h | ⟨k, hk, rfl⟩
        · exact hst1 _ (Or.inr rfl) h
        · exact Or.inr ⟨k + 1, by omega, by rw [Nat.succ_mul]; omega⟩

theorem windowLoop_appended (ix : IndexPart) (o : Oracles) (ws : Nat) :
    ∀ rem wi st, ∀ e ∈ ((windowLoop ix o ws rem wi st).1).appended,
      e ∈ st.appended ∨ ∃ k, k < rem ∧ e.win = wi + k * ws := by
  intro rem
  induction rem with
  | zero => intro wi st e he; exact Or.inl he
  | succ m ih =>
    intro wi st e he
    have hst1 : ∀ st1 : PassState,
        (st1 = st ∨ st1.appended = st.appended ++ ((probeWindow ix o st.read wi).2).hits) →
        e ∈ st1.appended → e ∈ st.appended ∨ ∃ k, k < m + 1 ∧ e.win = wi + k * ws := by
      intro st1 h1 hmem
      rcases h1 with rfl | h1
      · exact Or.inl hmem
      · rw [h1, List.mem_append] at hmem
        rcases hmem with h | h
        · exact Or.inl h
        · exact Or.inr ⟨0, by omega,
            by rw [probeWindow_hits_win ix o st.read wi e h]; omega⟩
    simp only [windowLoop] at he
    by_cases hv : st.visited wi
    · simp only [hv, if_true] at he
      by_cases hm : m = 0
      · simp only [hm, if_true] at he
        exact hst1 st (Or.inl rfl) he
      · simp only [hm, if_false] at he
        rcases ih (wi + ws) st e he with h | ⟨k, hk, hke⟩
        · exact hst1 st (Or.inl rfl) h
        · exact Or.inr ⟨k + 1, by omega, by rw [hke, Nat.succ_mul]; omega⟩
    · simp only [hv, if_false] at he
      by_cases hm : m = 0
      · simp only [hm, if_true] at he
        exact hst1 _ (Or.inr rfl) he
      · simp only [hm, if_false] at he
        rcases ih (wi + ws) _ e he with h | ⟨k, hk, hke⟩
        · exact hst1 _ (Or.inr rfl) h
        · exact Or.inr ⟨k + 1, by omega, by rw [hke, Nat.succ_mul]; omega⟩

/-- Claim C3: for a read of length at least `lnwin` and a positive stride,
every window offset the pass's search loop probes — and hence the `win`
component of every `(ref_id, win_index)` pair the probes append to
`read.id_win_hits` — satisfies `win_index + lnwin ≤ |isequence|`; and the
window count `numwin = (len - lnwin + windowshift) / windowshift` (lines
211-213) keeps the last window `(numwin - 1) * windowshift` in bounds. -/
theorem C3_window_bounds (ix : IndexPart) (o : Oracles) (read : Read) (stats : Readstats)
    (ws : Nat) (hws : 0 < ws) (hlen : ix.lnwin ≤ read.isequence.length) :
    (∀ x ∈ ((windowLoop ix o ws ((read.isequence.length - ix.lnwin + ws) / ws) 0
        (initPassState read stats)).1).probed,
        x + ix.lnwin ≤ read.isequence.length)
    ∧ (∀ e ∈ ((windowLoop ix o ws ((read.isequence.length - ix.lnwin + ws) / ws) 0
        (initPassState read stats)).1).appended,
        e.win + ix.lnwin ≤ read.isequence.length)
    ∧ ((read.isequence.length - ix.lnwin + ws) / ws - 1) * ws + ix.lnwin
        ≤ read.isequence.length := by
  obtain ⟨D, hD⟩ : ∃ D, (read.isequence.length - ix.lnwin) / ws = D := ⟨_, rfl⟩
  have hnumwin : (read.isequence.length - ix.lnwin + ws) / ws = D + 1 := by
    rw [Nat.add_div_right _ hws, hD]
  have hDb : D * ws ≤ read.isequence.length - ix.lnwin := by
    rw [← hD]; exact Nat.div_mul_le_self _ _
  have hbound : ∀ k, k < D + 1 → k * ws + ix.lnwin ≤ read.isequence.length := by
    intro k hk
    have h1 : k * ws ≤ D * ws := Nat.mul_le_mul_right ws (by omega)
    omega
  rw [hnumwin]
  refine ⟨?_, ?_, ?_⟩
  · intro x hx
    rcases windowLoop_probed ix o ws (D + 1) 0 (initPassState read stats) x hx with h | ⟨k, hk, rfl⟩
    · simp [initPassState] at h
    · have := hbound k hk
      omega
  · intro e he
    rcases windowLoop_appended ix o ws (D + 1) 0 (initPassState read stats) e he with h | ⟨k, hk, hke⟩
    · simp [initPassState] at h
    · have := hbound k hk
      omega
  · simp only [Nat.add_sub_cancel]
    exact hbound D (by omega)

/-- Witness for `C3_window_bounds` at a concrete pass. -/
theorem C3_window_bounds_witness :
    ((0 : Nat) < 2 ∧ (4 : Nat) ≤ ([0, 1, 2, 3, 0, 1] : List Nat).length) ∧
      ((([0, 1, 2, 3, 0, 1] : List Nat).length - 4 + 2) / 2 - 1) * 2 + 4
        ≤ ([0, 1, 2, 3, 0, 1] : List Nat).length :=
  ⟨⟨by decide, by decide⟩,
    (C3_window_bounds ⟨0, 0, true, 4, 2, 2, 2, [2, 2, 2], fun _ => ⟨0, none, none⟩⟩
        ⟨fun _ _ _ => ([], false), fun _ _ _ => ([], false), fun _ r s => (r, s, false)⟩
        ⟨7, [0, 1, 2, 3, 0, 1], true, 0, 0, 0, 0, false, false, 0, [], []⟩
        ⟨100, 0, 0⟩ 2 (by decide) (by decide)).2.2⟩

/-- Claim C4 counterexample: with strides `[1, 2, 2]` and the chainer
leaving `search` true after pass 1's final window, the loop stops even
though `pass_n ≠ 2` and the chainer did not signal done — the duplicate
trailing strides collapse past pass 2, an exit the claim does not admit. -/
theorem C4_counterexample :
    afterFinal [1, 2, 2] 1 true = PassStep.stop
      ∧ (1 : Nat) ≠ 2 ∧ (true : Bool) ≠ false := by decide

/-- Claim C4 (amended): the pass loop terminates within 3 passes — fuel 3
always yields a result when strides are positive, the read is at least
`lnwin` long, and the chainer preserves the sequence length — and after a
final window the loop stops exactly when the chainer cleared `search`, or
`pass_n = 2`, or the stride-collapsing advance moves past pass 2; otherwise
the next pass runs with a strictly larger `pass_n ≤ 2` and stride
`skiplengths[pass_n]`. -/
theorem C4_pass_loop (ix : IndexPart) (o : Oracles) (read : Read) (stats : Readstats)
    (h3 : ix.skiplengths.length = 3) (hpos : ∀ x ∈ ix.skiplengths, 0 < x)
    (hlen : ix.lnwin ≤ read.isequence.length)
    (hch : ∀ n r s, ((o.chainer n r s).1).isequence.length = r.isequence.length) :
    (passLoopF ix o 3 0 (ix.skiplengths.getD 0 0) (initPassState read stats)).isSome
    ∧ (∀ skips pass_n search, afterFinal skips pass_n search = PassStep.stop ↔
        (search = false ∨ pass_n = 2 ∨ 2 < passAdvance skips pass_n + 1))
    ∧ (∀ skips pass_n search p sh, afterFinal skips pass_n search = PassStep.next p sh →
        pass_n < p ∧ p ≤ 2 ∧ sh = skips.getD p 0) := by
  refine ⟨?_, afterFinal_stop_iff, afterFinal_next⟩
  have hsh : 0 < ix.skiplengths.getD 0 0 := by
    have h0 : (0 : Nat) < ix.skiplengths.length := by omega
    rw [List.getD_eq_getElem?_getD, List.getElem?_eq_getElem h0]
    exact hpos _ (List.getElem_mem h0)
  exact passLoopF_isSome ix o h3 hpos hch 3 0 _ _ (by omega) (by omega) hsh hlen

/-- Witness for `C4_pass_loop` at a concrete configuration. -/
theorem C4_pass_loop_witness :
    (([1, 2, 4] : List Nat).length = 3
        ∧ (4 : Nat) ≤ ([0, 1, 2, 3] : List Nat).length) ∧
      (passLoopF ⟨0, 0, true, 4, 2, 2, 2, [1, 2, 4], fun _ => ⟨0, none, none⟩⟩
          ⟨fun _ _ _ => ([], false), fun _ _ _ => ([], false), fun _ r s => (r, s, false)⟩
          3 0 (([1, 2, 4] : List Nat).getD 0 0)
          (initPassState ⟨7, [0, 1, 2, 3], true, 0, 0, 0, 0, false, false, 0, [], []⟩
            ⟨100, 0, 0⟩)).isSome :=
  ⟨⟨by decide, by decide⟩,
    (C4_pass_loop ⟨0, 0, true, 4, 2, 2, 2, [1, 2, 4], fun _ => ⟨0, none, none⟩⟩
        ⟨fun _ _ _ => ([], false), fun _ _ _ => ([], false), fun _ r s => (r, s, false)⟩
        ⟨7, [0, 1, 2, 3], true, 0, 0, 0, 0, false, false, 0, [], []⟩ ⟨100, 0, 0⟩
        (by decide) (by decide) (by decide) (fun _ _ _ => rfl)).1⟩

/-- Claim C9: with the three strides all equal (`[2, 2, 2]`, satisfying the
spec's monotonicity invariant) the skip-ahead guard of lines 357-358 reads
`skiplengths[3]` — a fourth element past the three configured strides — and
in the total embedding that access yields `none` (in the C++ source it is an
out-of-bounds `std::vector` read). -/
theorem C9_skiplengths_oob :
    3 ∈ passAdvanceAccesses [2, 2, 2] 0 ∧ (([2, 2, 2] : List Nat))[3]? = none := by
  decide

/- ------------------------------------------------------------------ -/
/- The per-read driver `parallelTraversalJob` (lines 149-382).         -/
/- ------------------------------------------------------------------ -/

/-- The reverse-strand early-termination check (lines 155-167): on a
reverse pass, with `num_alignments_gv > 0` return when the countdown
`read.num_alignments` is negative; otherwise return when
`num_best_hits_gv > 0`, `min_lis_gv > 0` and `read.max_SW_score`
equals `num_best_hits_gv` (the source's test for "the maximum scoring
alignment has been found"). -/
def earlySkip (cfg : Config) (ix : IndexPart) (read : Read) : Bool :=
  if !ix.forward then
    if 0 < cfg.num_alignments_gv then decide (read.num_alignments < 0)
    else
      decide (0 < cfg.num_best_hits_gv ∧ 0 < cfg.min_lis_gv ∧
        (read.max_SW_score : Int) = cfg.num_best_hits_gv)
  else false

/-- Lines 171-176: fold the read's length into the min/max read-length
statistics. -/
def updateMinMax (stats : Readstats) (len : Nat) : Readstats :=
  let s1 := if len < stats.min_read_len then { stats with min_read_len := len } else stats
  if s1.max_read_len < len then { s1 with max_read_len := len } else s1

/-- Lines 371-381: after the search loop, flip `hit_denovo` off when the
read did not align, the pass is reverse-strand, `num_alignments_gv > -1`,
de-novo OTU output is enabled and `hit_denovo` is set; then count the read
into `total_reads_denovo_clustering` when de-novo OTU output is enabled and
`hit_denovo` is (still) true. -/
def postProcess (cfg : Config) (ix : IndexPart) (read : Read) (stats : Readstats) :
    Read × Readstats :=
  let read' :=
    if !read.hit && !ix.forward && decide (-1 < cfg.num_alignments_gv) then
      if cfg.de_novo_otu_gv && read.hit_denovo then
        { read with hit_denovo := !read.hit_denovo }
      else read
    else read
  let stats' :=
    if cfg.de_novo_otu_gv && read'.hit_denovo then
      { stats with total_reads_denovo_clustering := stats.total_reads_denovo_clustering + 1 }
    else stats
  (read', stats')

/-- Which `return` path a driver invocation took: the reverse-strand early
termination (line 161 or 166), the too-short rejection (line 189, after the
warning is printed), or a full search.  The too-short outcome marks the
non-fatal logged warning; the driver has no failure channel. -/
inductive Outcome where
  | earlySkip : Outcome
  | tooShort : Outcome
  | searched : Outcome
deriving DecidableEq, Repr

/-- The per-read driver `parallelTraversalJob` (lines 149-382): record the
checkpoint `(lastIndex, lastPart)`, apply the reverse-strand early
termination, update the read-length statistics, reject reads shorter than
`lnwin`, run the pass loop from pass 0 with stride `skiplengths[0]`
(line 192), and post-process the de-novo flags.  `fuel` bounds the unbounded
C++ pass loop; `none` means the fuel ran out (theorem `C4_pass_loop` shows
3 always suffices). -/
def parallelTraversalJob (cfg : Config) (ix : IndexPart) (o : Oracles) (fuel : Nat)
    (read : Read) (stats : Readstats) : Option (Outcome × Read × Readstats) :=
  let read1 := { read with lastIndex := ix.index_num, lastPart := ix.part }
  if earlySkip cfg ix read1 then some (Outcome.earlySkip, read1, stats)
  else
    let stats1 := updateMinMax stats read1.isequence.length
    if read1.isequence.length < ix.lnwin then
      some (Outcome.tooShort, { read1 with isValid := false }, stats1)
    else
      match passLoopF ix o fuel 0 (ix.skiplengths.getD 0 0) (initPassState read1 stats1) with
      | none => none
      | some st =>
        let pp := postProcess cfg ix st.read st.stats
        some (Outcome.searched, pp.1, pp.2)

/-- Projection: which return path a driver result took. -/
def outcomeOf (r : Option (Outcome × Read × Readstats)) : Option Outcome :=
  r.map fun x => x.1

/-- Projection: the read a driver result carries. -/
def readOf (r : Option (Outcome × Read × Readstats)) : Option Read :=
  r.map fun x => x.2.1

/-- Projection: the statistics a driver result carries. -/
def statsOf (r : Option (Outcome × Read × Readstats)) : Option Readstats :=
  r.map fun x => x.2.2

theorem earlySkip_eq_true_iff (cfg : Config) (ix : IndexPart) (read : Read) :
    earlySkip cfg ix read = true ↔
      (ix.forward = false ∧
        ((0 < cfg.num_alignments_gv ∧ read.num_alignments < 0) ∨
          (¬ 0 < cfg.num_alignments_gv ∧ 0 < cfg.num_best_hits_gv ∧ 0 < cfg.min_lis_gv ∧
            (read.max_SW_score : Int) = cfg.num_best_hits_gv))) := by
  cases hf : ix.forward
  · by_cases hna : 0 < cfg.num_alignments_gv
    · simp [earlySkip, hf, hna]
    · simp [earlySkip, hf, hna]
  · simp [earlySkip, hf]

theorem driver_tooShort_eq (cfg : Config) (ix : IndexPart) (o : Oracles) (fuel : Nat)
    (read : Read) (stats : Readstats)
    (hskip : earlySkip cfg ix read = false)
    (hlen : read.isequence.length < ix.lnwin) :
    parallelTraversalJob cfg ix o fuel read stats
      = some (Outcome.tooShort,
          { read with lastIndex := ix.index_num, lastPart := ix.part, isValid := false },
          updateMinMax stats read.isequence.length) := by
  have hskip1 : earlySkip cfg ix { read with lastIndex := ix.index_num, lastPart := ix.part }
      = false := hskip
  have hlen1 : ({ read with lastIndex := ix.index_num, lastPart := ix.part } : Read).isequence.length
      < ix.lnwin := hlen
  simp [parallelTraversalJob, hskip1, hlen1]

/-- A trivial oracle assignment: the tries report no hits and the chainer
clears `search` at its first invocation, leaving read and statistics
untouched. -/
def oTrivial : Oracles :=
  ⟨fun _ _ _ => ([], false), fun _ _ _ => ([], false), fun _ r s => (r, s, false)⟩

def cfgC1 : Config := ⟨1, 0, 0, false⟩

def ixC1 : IndexPart := ⟨0, 0, false, 4, 2, 2, 2, [1, 2, 4], fun _ => ⟨0, none, none⟩⟩

def readC1 : Read := ⟨2, [0, 0, 0, 0], true, 0, 0, 0, 0, false, false, 0, [], []⟩

/-- Claim C1 counterexample: on the reverse strand with
`num_alignments_gv = 1 > 0` and the countdown at exactly zero, the driver
does not return at the early-termination check — it runs the search
(the code returns only when the countdown is negative, line 161). -/
theorem C1_counterexample :
    (0 < cfgC1.num_alignments_gv ∧ ixC1.forward = false ∧ readC1.num_alignments = 0)
    ∧ outcomeOf (parallelTraversalJob cfgC1 ixC1 oTrivial 3 readC1 ⟨100, 0, 0⟩)
        = some Outcome.searched := by
  decide

/-- Claim C1 (amended): the driver returns at the reverse-strand
early-termination check exactly when the strand is reverse and either
`num_alignments_gv > 0` with the countdown `read.num_alignments` strictly
below zero, or `num_alignments_gv ≤ 0` with `num_best_hits_gv > 0`,
`min_lis_gv > 0` and `read.max_SW_score = num_best_hits_gv` (the code's
test for the maximum-scoring alignment having been found); the early return
leaves the read unchanged apart from the `lastIndex`/`lastPart` checkpoint
and leaves the statistics untouched. -/
theorem C1_reverse_skip (cfg : Config) (ix : IndexPart) (o : Oracles) (fuel : Nat)
    (read : Read) (stats : Readstats) :
    parallelTraversalJob cfg ix o fuel read stats
        = some (Outcome.earlySkip,
            { read with lastIndex := ix.index_num, lastPart := ix.part }, stats)
      ↔ (ix.forward = false ∧
          ((0 < cfg.num_alignments_gv ∧ read.num_alignments < 0) ∨
            (¬ 0 < cfg.num_alignments_gv ∧ 0 < cfg.num_best_hits_gv ∧ 0 < cfg.min_lis_gv ∧
              (read.max_SW_score : Int) = cfg.num_best_hits_gv))) := by
  have hinv : earlySkip cfg ix { read with lastIndex := ix.index_num, lastPart := ix.part }
      = earlySkip cfg ix read := rfl
  simp only [parallelTraversalJob, hinv]
  cases hes : earlySkip cfg ix read with
  | true =>
    simp only [if_true]
    constructor
    · intro _
      exact (earlySkip_eq_true_iff cfg ix read).mp hes
    · intro _
      trivial
  | false =>
    simp only [Bool.false_eq_true, if_false]
    constructor
    · intro h
      exfalso
      by_cases hlen :
          ({ read with lastIndex := ix.index_num, lastPart := ix.part } : Read).isequence.length
            < ix.lnwin
      · simp [hlen] at h
      · simp only [hlen, if_false] at h
        cases hp : passLoopF ix o fuel 0 (ix.skiplengths.getD 0 0)
            (initPassState { read with lastIndex := ix.index_num, lastPart := ix.part }
              (updateMinMax stats
                ({ read with lastIndex := ix.index_num, lastPart := ix.part } : Read).isequence.length)) with
        | none => rw [hp] at h; exact Option.noConfusion h
        | some st => rw [hp] at h; simp at h
    · intro hrhs
      exfalso
      have := (earlySkip_eq_true_iff cfg ix read).mpr hrhs
      rw [hes] at this
      exact Bool.noConfusion this

def cfgC2 : Config := ⟨1, 0, 0, false⟩

def ixC2 : IndexPart := ⟨0, 0, false, 8, 4, 4, 2, [1, 2, 4], fun _ => ⟨0, none, none⟩⟩

def readC2 : Read := ⟨1, [0, 0, 0, 0], true, 0, 0, -1, 0, false, false, 0, [],
  [⟨0, 0, 0, 0, 0, 0⟩]⟩

/-- Claim C2 counterexample: a read of length 4 against `lnwin = 8`, on the
reverse strand with the num-alignments countdown negative: the
early-termination check (which precedes the length check) returns first, so
`isValid` stays true; and the alignments the read carried stay non-empty. -/
theorem C2_counterexample :
    readC2.isequence.length < ixC2.lnwin
    ∧ outcomeOf (parallelTraversalJob cfgC2 ixC2 oTrivial 0 readC2 ⟨100, 0, 0⟩)
        = some Outcome.earlySkip
    ∧ (readOf (parallelTraversalJob cfgC2 ixC2 oTrivial 0 readC2 ⟨100, 0, 0⟩)).map Read.isValid
        = some true
    ∧ (readOf (parallelTraversalJob cfgC2 ixC2 oTrivial 0 readC2 ⟨100, 0, 0⟩)).map Read.alignments
        ≠ some [] := by
  decide

/-- Claim C2 (amended): a read shorter than `lnwin` that is not taken by the
reverse-strand early-termination check has `isValid` set to false, the
condition is logged as a warning and the driver returns without searching
(non-fatal, no error raised); its alignments list is left unchanged — in
particular it is empty whenever it was empty on entry. -/
theorem C2_too_short (cfg : Config) (ix : IndexPart) (o : Oracles) (fuel : Nat)
    (read : Read) (stats : Readstats)
    (hskip : earlySkip cfg ix read = false)
    (hlen : read.isequence.length < ix.lnwin) :
    parallelTraversalJob cfg ix o fuel read stats
      = some (Outcome.tooShort,
          { read with lastIndex := ix.index_num, lastPart := ix.part, isValid := false },
          updateMinMax stats read.isequence.length)
    ∧ ({ read with lastIndex := ix.index_num, lastPart := ix.part, isValid := false } : Read).alignments
        = read.alignments :=
  ⟨driver_tooShort_eq cfg ix o fuel read stats hskip hlen, rfl⟩

/-- Witness for `C2_too_short` on a concrete too-short read. -/
theorem C2_too_short_witness :
    (earlySkip ⟨-1, 0, 0, false⟩ ⟨1, 2, true, 18, 9, 9, 2, [2, 4, 8], fun _ => ⟨0, none, none⟩⟩
        ⟨5, [1, 2, 3], true, 0, 0, 0, 0, false, false, 0, [], []⟩ = false
      ∧ ([1, 2, 3] : List Nat).length < 18) ∧
      parallelTraversalJob ⟨-1, 0, 0, false⟩
          ⟨1, 2, true, 18, 9, 9, 2, [2, 4, 8], fun _ => ⟨0, none, none⟩⟩ oTrivial 0
          ⟨5, [1, 2, 3], true, 0, 0, 0, 0, false, false, 0, [], []⟩ ⟨100, 0, 0⟩
        = some (Outcome.tooShort,
            ⟨5, [1, 2, 3], false, 1, 2, 0, 0, false, false, 0, [], []⟩,
            ⟨3, 3, 0⟩) :=
  ⟨⟨by decide, by decide⟩, by
    have h := (C2_too_short ⟨-1, 0, 0, false⟩
        ⟨1, 2, true, 18, 9, 9, 2, [2, 4, 8], fun _ => ⟨0, none, none⟩⟩ oTrivial 0
        ⟨5, [1, 2, 3], true, 0, 0, 0, 0, false, false, 0, [], []⟩ ⟨100, 0, 0⟩
        (by decide) (by decide)).1
    rw [h]
    decide⟩

def cfgC8 : Config := ⟨-1, 0, 0, true⟩

def ixC8 : IndexPart := ⟨0, 0, false, 4, 2, 2, 2, [1, 2, 4], fun _ => ⟨0, none, none⟩⟩

def readC8 : Read := ⟨3, [0, 0, 0, 0], true, 0, 0, 0, 0, false, true, 0, [], []⟩

/-- Claim C8 counterexample: a read that never hit, on the reverse strand,
with `num_alignments_gv = -1` (the unlimited default): the driver does not
flip `hit_denovo` off — the flip at line 377 additionally requires
`num_alignments_gv > -1` and `de_novo_otu_gv` — and it increments
`total_reads_denovo_clustering` in this very invocation. -/
theorem C8_counterexample :
    ixC8.forward = false
    ∧ (readOf (parallelTraversalJob cfgC8 ixC8 oTrivial 3 readC8 ⟨100, 0, 0⟩)).map Read.hit
        = some false
    ∧ (readOf (parallelTraversalJob cfgC8 ixC8 oTrivial 3 readC8 ⟨100, 0, 0⟩)).map Read.hit_denovo
        = some true := by
  decide

/-- Claim C8 (amended): after the search loop the driver turns `hit_denovo`
off exactly when the read did not hit, the pass is reverse-strand,
`num_alignments_gv > -1`, de-novo OTU output is enabled and `hit_denovo`
was set; and `total_reads_denovo_clustering` is incremented at the end of
every invocation that reaches the post phase — exactly when de-novo OTU
output is enabled and `hit_denovo` is then true — not once per read after
all index parts. -/
theorem C8_post_denovo (cfg : Config) (ix : IndexPart) (read : Read) (stats : Readstats) :
    ((postProcess cfg ix read stats).1.hit_denovo = false ↔
        (read.hit_denovo = false ∨
          (read.hit = false ∧ ix.forward = false ∧ -1 < cfg.num_alignments_gv ∧
            cfg.de_novo_otu_gv = true)))
    ∧ (postProcess cfg ix read stats).2.total_reads_denovo_clustering
        = stats.total_reads_denovo_clustering
          + (if cfg.de_novo_otu_gv = true ∧ (postProcess cfg ix read stats).1.hit_denovo = true
             then 1 else 0) := by
  cases hh : read.hit <;> cases hf : ix.forward <;> cases hd : cfg.de_novo_otu_gv <;>
    cases hdn : read.hit_denovo <;> by_cases hna : -1 < cfg.num_alignments_gv <;>
    simp [postProcess, hh, hf, hd, hdn, hna]

/-- Claim C10: a read that is not taken by the reverse-strand
early-termination check has its length folded into `min_read_len` /
`max_read_len` before the too-short check, so a too-short read still
contributes to those statistics; the rejection itself changes only
`isValid` (beyond the `lastIndex`/`lastPart` checkpoint written for every
read), leaving `alignments`, `id_win_hits`, `hit` and `num_alignments`
unchanged. -/
theorem C10_short_read_frame (cfg : Config) (ix : IndexPart) (o : Oracles) (fuel : Nat)
    (read : Read) (stats : Readstats)
    (hskip : earlySkip cfg ix read = false)
    (hlen : read.isequence.length < ix.lnwin) :
    statsOf (parallelTraversalJob cfg ix o fuel read stats)
        = some (updateMinMax stats read.isequence.length)
    ∧ (updateMinMax stats read.isequence.length).min_read_len
        = min stats.min_read_len read.isequence.length
    ∧ (updateMinMax stats read.isequence.length).max_read_len
        = max stats.max_read_len read.isequence.length
    ∧ (readOf (parallelTraversalJob cfg ix o fuel read stats)).map Read.isValid = some false
    ∧ (readOf (parallelTraversalJob cfg ix o fuel read stats)).map Read.alignments
        = some read.alignments
    ∧ (readOf (parallelTraversalJob cfg ix o fuel read stats)).map Read.id_win_hits
        = some read.id_win_hits
    ∧ (readOf (parallelTraversalJob cfg ix o fuel read stats)).map Read.hit = some read.hit
    ∧ (readOf (parallelTraversalJob cfg ix o fuel read stats)).map Read.num_alignments
        = some read.num_alignments := by
  have h := driver_tooShort_eq cfg ix o fuel read stats hskip hlen
  rw [h]
  have hmm : (updateMinMax stats read.isequence.length).min_read_len
        = min stats.min_read_len read.isequence.length
      ∧ (updateMinMax stats read.isequence.length).max_read_len
        = max stats.max_read_len read.isequence.length := by
    unfold updateMinMax
    dsimp only
    split <;> split <;> simp_all <;> omega
  exact ⟨rfl, hmm.1, hmm.2, rfl, rfl, rfl, rfl, rfl⟩

/-- Witness for `C10_short_read_frame` on a concrete too-short read. -/
theorem C10_short_read_frame_witness :
    (earlySkip ⟨2, 0, 0, false⟩ ⟨0, 1, true, 12, 6, 6, 3, [3, 3, 6], fun _ => ⟨0, none, none⟩⟩
        ⟨9, [2, 2], true, 0, 0, 5, 0, true, true, 0, [⟨4, 0⟩], []⟩ = false
      ∧ ([2, 2] : List Nat).length < 12) ∧
      statsOf (parallelTraversalJob ⟨2, 0, 0, false⟩
          ⟨0, 1, true, 12, 6, 6, 3, [3, 3, 6], fun _ => ⟨0, none, none⟩⟩ oTrivial 0
          ⟨9, [2, 2], true, 0, 0, 5, 0, true, true, 0, [⟨4, 0⟩], []⟩ ⟨7, 4, 0⟩)
        = some (updateMinMax ⟨7, 4, 0⟩ ([2, 2] : List Nat).length) :=
  ⟨⟨by decide, by decide⟩,
    (C10_short_read_frame ⟨2, 0, 0, false⟩
        ⟨0, 1, true, 12, 6, 6, 3, [3, 3, 6], fun _ => ⟨0, none, none⟩⟩ oTrivial 0
        ⟨9, [2, 2], true, 0, 0, 5, 0, true, true, 0, [⟨4, 0⟩], []⟩ ⟨7, 4, 0⟩
        (by decide) (by decide)).1⟩

end Sortmerna
